import Mathlib

/-!
Verification of `comfy_api_simplified` (files `comfy_api_wrapper.py` and
`comfy_workflow_wrapper.py`) against its natural-language specification.

The development shallowly embeds the Python code:
* JSON-like Python values become the inductive type `PyVal`; Python
  exceptions become the `Except` monad with error type `PyExn`.
* The workflow graph (`ComfyWorkflowWrapper`, a `dict` subclass) becomes an
  association list `Workflow` from node id to node.
* The websocket wait loop of `wait_for_prompt` becomes the state machine
  `runWait`, driven by a script of inbound websocket items (`WsEvent`).
* The recursive `dfs` inside `prune` becomes a fuelled recursion `dfs`;
  the fuel `(keys w).length + 1` is an upper bound on the nesting depth
  (each nested call first marks an unvisited graph key as visited), and
  fuel-irrelevance is proved, so the fuel is not an observable artifact.
-/

namespace Comfy

/-- Python/JSON values as manipulated by the wrappers.  Floats carry a
rational payload; no float arithmetic occurs anywhere in the source, the
payload only feeds type tests (`isinstance`) and display. -/
inductive PyVal where
  | vNull : PyVal
  | vBool : Bool → PyVal
  | vInt : Int → PyVal
  | vFloat : Rat → PyVal
  | vStr : String → PyVal
  | vList : List PyVal → PyVal
  | vDict : List (String × PyVal) → PyVal

/-- Python exceptions raised by the embedded code paths. -/
inductive PyExn where
  | keyError (key : String)
  | typeError (msg : String)
  | valueError (msg : String)
  | assertionError (msg : String)
  | connectionClosed (msg : String)
  | jsonDecodeError (msg : String)
deriving DecidableEq

/-- `repr()` of a value (used by `str()` on containers).  Strings are
quoted; containers recurse.  Floats print their rational payload. -/
def pyRepr : PyVal → String
  | .vNull => "None"
  | .vBool true => "True"
  | .vBool false => "False"
  | .vInt n => toString n
  | .vFloat q => toString q
  | .vStr s => "'" ++ s ++ "'"
  | .vList xs => "[" ++ String.intercalate ", " (xs.attach.map (fun x => pyRepr x.1)) ++ "]"
  | .vDict kvs =>
      "\x7b" ++ String.intercalate ", "
        (kvs.attach.map (fun p => "'" ++ p.1.1 ++ "': " ++ pyRepr p.1.2)) ++ "\x7d"
termination_by v => sizeOf v
decreasing_by
  · have h := List.sizeOf_lt_of_mem x.2
    simp only [PyVal.vList.sizeOf_spec]
    omega
  · have h1 := List.sizeOf_lt_of_mem p.2
    have h2 : sizeOf p.1.2 < sizeOf p.1 := by
      obtain ⟨a, b⟩ := p.1
      simp only [Prod.mk.sizeOf_spec]
      omega
    simp only [PyVal.vDict.sizeOf_spec]
    omega

/-- Python `str()`: identity on strings, `repr` elsewhere (`str` and
`repr` agree on every non-string value). -/
def pyStr : PyVal → String
  | .vNull => "None"
  | .vBool true => "True"
  | .vBool false => "False"
  | .vInt n => toString n
  | .vFloat q => toString q
  | .vStr s => s
  | .vList xs => pyRepr (.vList xs)
  | .vDict kvs => pyRepr (.vDict kvs)

/-- `isinstance(v, (int, float))`.  Python's `bool` is a subclass of
`int`, so booleans satisfy this test. -/
def isNumericPy : PyVal → Bool
  | .vBool _ => true
  | .vInt _ => true
  | .vFloat _ => true
  | _ => false

/-- `isinstance(v, bool)`. -/
def isBoolPy : PyVal → Bool
  | .vBool _ => true
  | _ => false

/-- `isinstance(v, list)`. -/
def isListPy : PyVal → Bool
  | .vList _ => true
  | _ => false

/-- Python truthiness, `bool(v)`. -/
def pyTruthy : PyVal → Bool
  | .vNull => false
  | .vBool b => b
  | .vInt n => n != 0
  | .vFloat q => q != 0
  | .vStr s => s != ""
  | .vList xs => !xs.isEmpty
  | .vDict kvs => !kvs.isEmpty

/-- `v is None`. -/
def pyIsNull : PyVal → Bool
  | .vNull => true
  | _ => false

/-- Subscripting `v[k]` with a string key: succeeds on dicts holding the
key, raises `KeyError` on dicts without it, `TypeError` otherwise. -/
def pyGetItem (v : PyVal) (k : String) : Except PyExn PyVal :=
  match v with
  | .vDict kvs =>
      match kvs.lookup k with
      | some x => .ok x
      | none => .error (.keyError k)
  | _ => .error (.typeError "value is not subscriptable by a string key")

/-- `k in v` for the dict case.  In every reachable call site the value
has already been subscripted successfully, hence is a dict. -/
def pyContainsKey (v : PyVal) (k : String) : Bool :=
  match v with
  | .vDict kvs => (kvs.lookup k).isSome
  | _ => false

/-- Python `v == s` where `s` is a string: strings compare by content,
any other operand compares unequal (no exception). -/
def pyEqStr (v : PyVal) (s : String) : Bool :=
  match v with
  | .vStr t => t == s
  | _ => false

/-- Python `v == n` where `n` is an int: ints compare exactly, bools as
0/1, floats by value, anything else unequal. -/
def pyEqInt (v : PyVal) (n : Int) : Bool :=
  match v with
  | .vInt m => m == n
  | .vBool b => (if b then (1 : Int) else 0) == n
  | .vFloat q => q == (n : Rat)
  | _ => false

/-! ## The event listener of `wait_for_prompt` (comfy_api_wrapper.py 105-187) -/

/-- Result of processing one decoded message inside the inner `while`:
either keep streaming, or return (the code `return prompt_id`). -/
inductive ProcResult where
  | continueStream : ProcResult
  | done (pid : String) : ProcResult
deriving DecidableEq

/-- One inbound item of the websocket script.
`msg m` is a text frame whose `json.loads` yielded `m`; `binFrame` is a
non-`str` frame (skipped by the `isinstance(out, str)` guard); `badFrame`
is a text frame on which `json.loads` raises; `disconnect` is a transport
error raised by `recv` (or a failed reconnection attempt). -/
inductive WsEvent where
  | msg (m : PyVal)
  | binFrame
  | badFrame
  | disconnect

/-- Externally visible side effects of the wait loop that the claims talk
about.  `submitPrompt` is in the vocabulary only to state that the
listener never emits it. -/
inductive Action where
  | sleep (secs : Nat)
  | reconnect (wsUrl : String)
  | submitPrompt
deriving DecidableEq

/-- Outcome of a wait: returned `prompt_id`; the re-raise after
"Max retries reached"; or the script ended while still streaming
(`pending` carries the remaining retry budget). -/
inductive Outcome where
  | completed (pid : String)
  | connectionExhausted
  | pending (retriesLeft : Nat)
deriving DecidableEq

/-- Processing of one decoded message, lines 126-175.  The source uses a
chain of independent `if mtype == ...:` tests whose guards are mutually
exclusive (a single `mtype` string), so the chain is rendered as
`if/else if`; every branch that the source falls out of ends in
`continueStream`.  Reads of message fields model the `KeyError` a missing
field raises; the `executing` progress branch models the
`f"...{node_id:4s}..."` format, which raises unless the node id is a
string. -/
def processMsg (prompt_id : String) (m : PyVal) : Except PyExn ProcResult :=
  match pyGetItem m "type" with
  | .error e => .error e
  | .ok mtype =>
    if pyEqStr mtype "crystools.monitor" then .ok .continueStream
    else if pyEqStr mtype "execution_cached" then
      -- logging reads message["data"]
      match pyGetItem m "data" with
      | .error e => .error e
      | .ok _ => .ok .continueStream
    else if pyEqStr mtype "execution_error" then
      match pyGetItem m "data" with
      | .error e => .error e
      | .ok data =>
        match pyGetItem data "prompt_id" with
        | .error e => .error e
        | .ok epid =>
          if pyEqStr epid prompt_id then
            -- the two logging lines read these four fields, in this order
            match pyGetItem data "node_id" with
            | .error e => .error e
            | .ok _ =>
              match pyGetItem data "node_type" with
              | .error e => .error e
              | .ok _ =>
                match pyGetItem data "exception_type" with
                | .error e => .error e
                | .ok _ =>
                  match pyGetItem data "exception_message" with
                  | .error e => .error e
                  | .ok _ => .ok .continueStream
          else .ok .continueStream
    else if pyEqStr mtype "status" then
      match pyGetItem m "data" with
      | .error e => .error e
      | .ok data =>
        match pyGetItem data "status" with
        | .error e => .error e
        | .ok st =>
          match pyGetItem st "exec_info" with
          | .error e => .error e
          | .ok ei =>
            match pyGetItem ei "queue_remaining" with
            | .error e => .error e
            | .ok qr =>
              if pyEqInt qr 0 then .ok (.done prompt_id)
              else .ok .continueStream
    else if pyEqStr mtype "executing" then
      match pyGetItem m "data" with
      | .error e => .error e
      | .ok data =>
        match pyGetItem data "node" with
        | .error e => .error e
        | .ok node =>
          if pyIsNull node then
            if pyContainsKey data "prompt_id" then
              match pyGetItem data "prompt_id" with
              | .error e => .error e
              | .ok p =>
                if pyEqStr p prompt_id then .ok (.done prompt_id)
                else .ok .continueStream
            else .ok .continueStream
          else
            match node with
            | .vStr _ => .ok .continueStream
            | _ => .error (.valueError "unsupported format string passed to node id")
    else if pyEqStr mtype "executed" then
      match pyGetItem m "data" with
      | .error e => .error e
      | .ok data =>
        match pyGetItem data "node" with
        | .error e => .error e
        | .ok node =>
          if pyIsNull node then
            if pyContainsKey data "prompt_id" then
              match pyGetItem data "prompt_id" with
              | .error e => .error e
              | .ok p =>
                if pyEqStr p prompt_id then .ok (.done prompt_id)
                else .ok .continueStream
            else .ok .continueStream
          else .ok .continueStream
    else .ok .continueStream

/-- Lifts one websocket item to the body of the `try`: non-`str` frames
are skipped, transport drops and undecodable frames raise, text frames
are classified by `processMsg`. -/
def eventResult (prompt_id : String) : WsEvent → Except PyExn ProcResult
  | .msg m => processMsg prompt_id m
  | .binFrame => .ok .continueStream
  | .badFrame => .error (.jsonDecodeError "Expecting value")
  | .disconnect => .error (.connectionClosed "no close frame received or sent")

/-- The reconnecting wait loop, lines 118-187.  `retries` is the mutable
`max_retries` counter (initially 30 in the source); `retryDelay` the
fixed backoff; `wsUrl` the websocket address computed once, before the
loop, from the client id.  Any exception inside the `try` lands in the
single `except` handler: with budget left it sleeps, decrements, and
reconnects; otherwise it re-raises. -/
def runWait (prompt_id wsUrl : String) (retryDelay : Nat) (retries : Nat) :
    List WsEvent → Outcome × List Action
  | [] => (.pending retries, [])
  | e :: rest =>
    match eventResult prompt_id e with
    | .ok .continueStream => runWait prompt_id wsUrl retryDelay retries rest
    | .ok (.done s) => (.completed s, [])
    | .error _ =>
      if 0 < retries then
        let res := runWait prompt_id wsUrl retryDelay (retries - 1) rest
        (res.1, .sleep retryDelay :: .reconnect wsUrl :: res.2)
      else (.connectionExhausted, [])

/-- What `queue_prompt_and_wait` does with the submission response,
lines 95-99: extracting `resp["prompt_id"]` inside
`try ... except KeyError: sys.exit(1)`. -/
inductive QpwStep where
  | proceed (prompt_id : PyVal)
  | processExit (code : Nat)
  | uncaught (e : PyExn)

/-- The `prompt_id` extraction step of `queue_prompt_and_wait` applied to
the decoded submission response.  A `KeyError` is caught and turned into
`sys.exit(1)` — process termination; other exceptions propagate. -/
def queuePromptAndWaitStep (resp : PyVal) : QpwStep :=
  match pyGetItem resp "prompt_id" with
  | .ok pid => .proceed pid
  | .error (.keyError _) => .processExit 1
  | .error e => .uncaught e

/-! ## The workflow graph (comfy_workflow_wrapper.py) -/

/-- A workflow node: `node["_meta"]["title"]` and `node["inputs"]`. -/
structure WfNode where
  title : String
  inputs : List (String × PyVal)

/-- `ComfyWorkflowWrapper` subclasses `dict`; the graph is its key/value
mapping.  An association list keeps the dict's (insertion-ordered,
unique-keyed) structure observable. -/
abbrev Workflow : Type := List (String × WfNode)

/-- `id in w` / `w[id]` for the workflow dict. -/
def lookupW (w : Workflow) (id : String) : Option WfNode :=
  List.lookup id w

/-- The node ids (dict keys) in order. -/
def keys (w : Workflow) : List String :=
  List.map Prod.fst w

/-- Dict assignment `d[k] = v` on an association list: replaces the first
binding of `k`, appends if absent. -/
def updateAssoc {α : Type} (l : List (String × α)) (k : String) (v : α) :
    List (String × α) :=
  match l with
  | [] => [(k, v)]
  | (k', v') :: rest =>
      if k' = k then (k', v) :: rest else (k', v') :: updateAssoc rest k v

/-- `set_node_param` (lines 39-67).  `jsonLoads` stands for the external
`json.loads` of the standard library, applied in the list branch; a
non-string argument to it raises `TypeError`.  Because Python's `bool`
subclasses `int`, a boolean original value satisfies the first
`isinstance(orig_value, (int, float))` test, so the `bool` branch is
unreachable; it is kept to mirror the source. -/
def set_node_param (jsonLoads : String → Except PyExn PyVal) (w : Workflow)
    (id : String) (param : String) (value : PyVal) : Except PyExn Workflow :=
  match lookupW w id with
  | none => .error (.valueError ("Node '" ++ id ++ "' not found."))
  | some node =>
    match List.lookup param node.inputs with
    | none => .error (.keyError param)
    | some orig =>
      let newVal : Except PyExn PyVal :=
        if isNumericPy orig then .ok value
        else if isBoolPy orig then .ok (.vBool (pyTruthy value))
        else if isListPy orig then
          match value with
          | .vStr s => jsonLoads s
          | _ => .error (.typeError "the JSON object must be str, bytes or bytearray")
        else .ok value
      match newVal with
      | .error e => .error e
      | .ok nv =>
          .ok (updateAssoc w id { node with inputs := updateAssoc node.inputs param nv })

/-- `get_node_param` (lines 69-86): `assert id in self` then
`self[id]["inputs"][param]`. -/
def get_node_param (w : Workflow) (id : String) (param : String) :
    Except PyExn PyVal :=
  match lookupW w id with
  | none => .error (.assertionError ("Node '" ++ id ++ "' not found."))
  | some node =>
    match List.lookup param node.inputs with
    | none => .error (.keyError param)
    | some v => .ok v

/-! ## `prune` (comfy_workflow_wrapper.py 106-131) -/

/-- Errors surfacing from `prune`: the `KeyError` of `workflow[node_id]`
on a missing id, plus the fuel marker of the embedding (proved
unreachable with the fuel `prune` passes). -/
inductive PruneErr where
  | keyError (id : String)
  | fuelExhausted
deriving DecidableEq

/-- The mutable `visited_nodes` / `required_nodes` sets of `prune`. -/
structure DfsSt where
  visited : Finset String
  required : Finset String

/-- The reference inputs a node's `dfs` recurses into: every input value
that is a list of exactly two elements contributes `str(input_value[0])`,
in input order. -/
def refTargets (n : WfNode) : List String :=
  n.inputs.filterMap (fun p =>
    match p.2 with
    | .vList [a, _] => some (pyStr a)
    | _ => none)

/-- Sequential processing of a list of pending ids by one step function:
the `for input_value in node["inputs"].values(): ... dfs(...)` loop and
the `for output_node in output_nodes: dfs(output_node)` loop, with the
first raised exception aborting everything. -/
def dfsList (step : String → DfsSt → Except PruneErr DfsSt) :
    List String → DfsSt → Except PruneErr DfsSt
  | [], s => .ok s
  | i :: rest, s =>
    match step i s with
    | .error e => .error e
    | .ok s' => dfsList step rest s'

/-- The inner `dfs` of `prune`, with explicit fuel for the embedding:
return if visited, mark visited, look the node up (KeyError if absent),
recurse into every reference input, then mark required.  The source
marks the id visited before the lookup; since a failed lookup aborts the
whole `prune`, marking it at the recursion (as here) is observationally
the same. -/
def dfs (w : Workflow) : Nat → String → DfsSt → Except PruneErr DfsSt
  | 0, _, _ => .error .fuelExhausted
  | fuel + 1, node_id, s =>
    if node_id ∈ s.visited then .ok s
    else
      match lookupW w node_id with
      | none => .error (.keyError node_id)
      | some node =>
        match dfsList (dfs w fuel) (refTargets node)
            ⟨insert node_id s.visited, s.required⟩ with
        | .error e => .error e
        | .ok s2 => .ok ⟨s2.visited, insert node_id s2.required⟩

/-- `prune` at a given fuel: run `dfs` from every output node, then keep
exactly the required nodes, in the workflow's own order. -/
def pruneFuel (w : Workflow) (output_nodes : List String) (fuel : Nat) :
    Except PruneErr Workflow :=
  match dfsList (dfs w fuel) output_nodes ⟨∅, ∅⟩ with
  | .error e => .error e
  | .ok s => .ok (List.filter (fun p => decide (p.1 ∈ s.required)) w)

/-- `prune(workflow, output_nodes, no_cache)`.  The `no_cache` parameter
is accepted and unused, as in the source.  The fuel bounds the `dfs`
nesting depth: every nested call first marks a previously unvisited
graph key as visited, so `(keys w).length + 1` levels always suffice;
fuel-irrelevance is proved below. -/
def prune (w : Workflow) (output_nodes : List String) (no_cache : Bool) :
    Except PruneErr Workflow :=
  pruneFuel w output_nodes ((keys w).length + 1)

/-- The producer ids reachable from the requested outputs by following
reference inputs, as traversed by `dfs`. -/
inductive Reach (w : Workflow) (O : List String) : String → Prop where
  | base {i : String} : i ∈ O → Reach w O i
  | step {i j : String} {n : WfNode} :
      Reach w O i → lookupW w i = some n → j ∈ refTargets n → Reach w O j

/-- The structural invariant of §3 of the spec: every reference's
producer id exists in the owning graph. -/
def ClosedWf (w : Workflow) : Prop :=
  ∀ p ∈ w, ∀ j ∈ refTargets p.2, j ∈ keys w

instance : DecidablePred ClosedWf := fun w =>
  inferInstanceAs (Decidable (∀ p ∈ w, ∀ j ∈ refTargets p.2, j ∈ keys w))

/-- Invariant of the traversal state: every required node's reference
targets have been visited. -/
def ClosedSt (w : Workflow) (s : DfsSt) : Prop :=
  ∀ i ∈ s.required, ∀ n, lookupW w i = some n → ∀ j ∈ refTargets n, j ∈ s.visited

/-- A reference edge of the graph, as a decidable test: node `i` exists
and one of its reference inputs points at `j`. -/
def RefEdge (w : Workflow) (i j : String) : Bool :=
  match lookupW w i with
  | some n => decide (j ∈ refTargets n)
  | none => false

/-! ## Concrete fixtures used by the per-claim theorems and witnesses -/

/-- A `status` event document with the given `queue_remaining`. -/
def statusMsg (qr : Int) : PyVal :=
  .vDict [("type", .vStr "status"),
          ("data", .vDict [("status",
              .vDict [("exec_info", .vDict [("queue_remaining", .vInt qr)])])])]

/-- A monitor telemetry event. -/
def monitorMsg : PyVal :=
  .vDict [("type", .vStr "crystools.monitor"), ("data", .vDict [("cpu", .vInt 3)])]

/-- An `executing` progress event for node `s`. -/
def executingMsg (s : String) : PyVal :=
  .vDict [("type", .vStr "executing"),
          ("data", .vDict [("node", .vStr s), ("node_type", .vStr "KSampler")])]

/-- An `executed` progress event for node `s`. -/
def executedMsg (s : String) : PyVal :=
  .vDict [("type", .vStr "executed"), ("data", .vDict [("node", .vStr s)])]

/-- An `execution_error` event whose embedded prompt id is `p`. -/
def errMsg (p : String) : PyVal :=
  .vDict [("type", .vStr "execution_error"),
          ("data", .vDict [("prompt_id", .vStr p), ("node_id", .vStr "7"),
                           ("node_type", .vStr "KSampler"),
                           ("exception_type", .vStr "RuntimeError"),
                           ("exception_message", .vStr "boom")])]

/-- The event sequence of the listener scenario in §8 of the spec. -/
def scenarioEvents : List WsEvent :=
  [.msg monitorMsg, .msg (statusMsg 2), .msg (executingMsg "5"),
   .msg (executedMsg "5"), .msg (statusMsg 0)]

/-- Stand-in for `json.loads` in runs that never reach the list branch of
`set_node_param`; the branch under scrutiny stores values without parsing. -/
def jsonLoadsUnused : String → Except PyExn PyVal :=
  fun _ => .error (.valueError "not reached")

/-- A one-node graph whose `steps` input holds the number 20. -/
def wSteps : Workflow := [("7", ⟨"sampler", [("steps", .vInt 20)]⟩)]

/-- `wSteps` after writing the string `"30"` into `steps`. -/
def wStepsAfter : Workflow := [("7", ⟨"sampler", [("steps", .vStr "30")]⟩)]

/-- A node whose only input is a literal two-element list `[3, 5]` — not
a reference, but shaped like one. -/
def wPair : Workflow := [("out", ⟨"o", [("size", .vList [.vInt 3, .vInt 5])]⟩)]

/-- `wPair` plus an unrelated node whose id happens to be `"3"`. -/
def wPairExtra : Workflow := wPair ++ [("3", ⟨"three", []⟩)]

/-- Node `a` referencing node `b`. -/
def nodeA : WfNode := ⟨"a", [("x", .vList [.vStr "b", .vInt 0])]⟩

/-- Node `b` referencing node `a`, closing a two-cycle. -/
def nodeB : WfNode := ⟨"b", [("y", .vList [.vStr "a", .vInt 0])]⟩

/-- A graph with the dependency cycle `a → b → a`. -/
def wCycle : Workflow := [("a", nodeA), ("b", nodeB)]

/-- A graph whose node `a` references a producer `b` that does not exist. -/
def wDangling : Workflow := [("a", nodeA)]

/-- A diamond: `top` references `l` and `r`, both reference `base`;
`stray` is unreachable from `top`. -/
def wDiamond : Workflow :=
  [("top", ⟨"t", [("u", .vList [.vStr "l", .vInt 0]), ("v", .vList [.vStr "r", .vInt 0])]⟩),
   ("l", ⟨"l", [("u", .vList [.vStr "base", .vInt 0])]⟩),
   ("r", ⟨"r", [("u", .vList [.vStr "base", .vInt 1])]⟩),
   ("base", ⟨"b", [("seed", .vInt 42)]⟩),
   ("stray", ⟨"s", [("u", .vList [.vStr "base", .vInt 0])]⟩)]

/-! ## Lemmas about the wait loop -/

theorem runWait_cons_continue {P u : String} {d r : Nat} {e : WsEvent}
    {rest : List WsEvent} (h : eventResult P e = .ok .continueStream) :
    runWait P u d r (e :: rest) = runWait P u d r rest := by
  simp only [runWait, h]

theorem runWait_cons_done {P u : String} {d r : Nat} {e : WsEvent}
    {rest : List WsEvent} {s : String} (h : eventResult P e = .ok (.done s)) :
    runWait P u d r (e :: rest) = (.completed s, []) := by
  simp only [runWait, h]

theorem runWait_cons_error {P u : String} {d r : Nat} {e : WsEvent}
    {rest : List WsEvent} {x : PyExn} (h : eventResult P e = .error x) :
    runWait P u d r (e :: rest) =
      if 0 < r then
        ((runWait P u d (r - 1) rest).1,
         .sleep d :: .reconnect u :: (runWait P u d (r - 1) rest).2)
      else (.connectionExhausted, []) := by
  simp only [runWait, h]

theorem eventResult_disconnect (P : String) :
    eventResult P .disconnect
      = .error (.connectionClosed "no close frame received or sent") :=
  rfl

/-- Any action the wait loop emits is the backoff sleep or a reconnection
to the one websocket address. -/
theorem runWait_actions (P u : String) (d : Nat) :
    ∀ (evs : List WsEvent) (r : Nat) (a : Action),
      a ∈ (runWait P u d r evs).2 → a = .sleep d ∨ a = .reconnect u := by
  intro evs
  induction evs with
  | nil => intro r a ha; simp [runWait] at ha
  | cons e rest ih =>
    intro r a ha
    cases he : eventResult P e with
    | error x =>
      rw [runWait_cons_error he] at ha
      by_cases hr : 0 < r
      · rw [if_pos hr] at ha
        simp only [List.mem_cons] at ha
        rcases ha with h | h | h
        · exact Or.inl h
        · exact Or.inr h
        · exact ih _ _ h
      · rw [if_neg hr] at ha
        simp at ha
    | ok pr =>
      cases pr with
      | continueStream => rw [runWait_cons_continue he] at ha; exact ih _ _ ha
      | done s => rw [runWait_cons_done he] at ha; simp at ha

/-! ## Lemmas about the graph store -/

theorem lookup_updateAssoc_self {α : Type} (l : List (String × α)) (k : String)
    (v : α) : List.lookup k (updateAssoc l k v) = some v := by
  induction l with
  | nil => simp [updateAssoc, List.lookup]
  | cons p rest ih =>
    obtain ⟨k', v'⟩ := p
    by_cases hk : k' = k
    · subst hk
      simp [updateAssoc, List.lookup]
    · have hkk : (k == k') = false := by simp [Ne.symm hk]
      simp only [updateAssoc, if_neg hk, List.lookup, hkk]
      exact ih

/-- `isinstance(orig, bool)` implies `isinstance(orig, (int, float))`:
the boolean branch of `set_node_param` is dead code. -/
theorem isBoolPy_imp_isNumericPy (v : PyVal) (h : isBoolPy v = true) :
    isNumericPy v = true := by
  cases v <;> simp_all [isBoolPy, isNumericPy]

/-! ## Lemmas about `dfs`, `dfsList` and `prune` -/

theorem lookupW_some_mem_keys {w : Workflow} {id : String} {n : WfNode}
    (h : lookupW w id = some n) : id ∈ keys w := by
  induction w with
  | nil => simp [lookupW, List.lookup] at h
  | cons p rest ih =>
    obtain ⟨k, v⟩ := p
    by_cases hk : id = k
    · subst hk; simp [keys]
    · simp only [lookupW, List.lookup_cons, beq_false_of_ne hk] at h
      simp only [keys, List.map_cons, List.mem_cons]
      exact Or.inr (ih h)

theorem lookupW_isSome_of_mem {w : Workflow} {id : String}
    (h : id ∈ keys w) : ∃ n, lookupW w id = some n := by
  induction w with
  | nil => simp [keys] at h
  | cons p rest ih =>
    obtain ⟨k, v⟩ := p
    by_cases hk : id = k
    · subst hk
      exact ⟨v, by simp [lookupW, List.lookup_cons]⟩
    · simp only [keys, List.map_cons, List.mem_cons] at h
      rcases h with h | h
      · exact absurd h hk
      · obtain ⟨n, hn⟩ := ih h
        exact ⟨n, by simp only [lookupW, List.lookup_cons, beq_false_of_ne hk]; exact hn⟩

theorem mem_of_lookupW {w : Workflow} {id : String} {n : WfNode}
    (h : lookupW w id = some n) : (id, n) ∈ w := by
  induction w with
  | nil => simp [lookupW, List.lookup] at h
  | cons p rest ih =>
    obtain ⟨k, v⟩ := p
    by_cases hk : id = k
    · subst hk
      simp only [lookupW, List.lookup_cons, beq_self_eq_true] at h
      simp [Option.some.inj h]
    · simp only [lookupW, List.lookup_cons, beq_false_of_ne hk] at h
      exact List.mem_cons_of_mem _ (ih h)

theorem lookupW_of_mem_nodup {w : Workflow} {p : String × WfNode}
    (hnd : (keys w).Nodup) (h : p ∈ w) : lookupW w p.1 = some p.2 := by
  induction w with
  | nil => simp at h
  | cons q rest ih =>
    obtain ⟨k, v⟩ := q
    simp only [keys, List.map_cons, List.nodup_cons] at hnd
    rcases List.mem_cons.mp h with h | h
    · subst h
      simp [lookupW, List.lookup_cons]
    · have hne : p.1 ≠ k := by
        intro he
        exact hnd.1 (he ▸ List.mem_map_of_mem Prod.fst h)
      simp only [lookupW, List.lookup_cons, beq_false_of_ne hne]
      exact ih hnd.2 h

/-- Inversion for a successful `dfs` at positive fuel. -/
theorem dfs_succ_ok_inv {w : Workflow} {fuel : Nat} {i : String} {s s' : DfsSt}
    (h : dfs w (fuel + 1) i s = .ok s') :
    (i ∈ s.visited ∧ s' = s) ∨
    (i ∉ s.visited ∧ ∃ node s2, lookupW w i = some node ∧
      dfsList (dfs w fuel) (refTargets node) ⟨insert i s.visited, s.required⟩
        = .ok s2 ∧
      s' = ⟨s2.visited, insert i s2.required⟩) := by
  rw [dfs] at h
  by_cases hv : i ∈ s.visited
  · rw [if_pos hv] at h
    exact Or.inl ⟨hv, (Except.ok.inj h).symm⟩
  · rw [if_neg hv] at h
    cases hl : lookupW w i with
    | none => rw [hl] at h; dsimp only at h; exact absurd h (by simp)
    | some node =>
      rw [hl] at h
      dsimp only at h
      cases hd : dfsList (dfs w fuel) (refTargets node)
          ⟨insert i s.visited, s.required⟩ with
      | error e => rw [hd] at h; exact absurd h (by simp)
      | ok s2 =>
        rw [hd] at h
        exact Or.inr ⟨hv, node, s2, rfl, hd, (Except.ok.inj h).symm⟩

/-- Inversion for a failing `dfs` at positive fuel. -/
theorem dfs_succ_error_inv {w : Workflow} {fuel : Nat} {i : String} {s : DfsSt}
    {e : PruneErr} (h : dfs w (fuel + 1) i s = .error e) :
    i ∉ s.visited ∧
    ((lookupW w i = none ∧ e = .keyError i) ∨
     (∃ node, lookupW w i = some node ∧
        dfsList (dfs w fuel) (refTargets node) ⟨insert i s.visited, s.required⟩
          = .error e)) := by
  rw [dfs] at h
  by_cases hv : i ∈ s.visited
  · rw [if_pos hv] at h; exact absurd h (by simp)
  · rw [if_neg hv] at h
    refine ⟨hv, ?_⟩
    cases hl : lookupW w i with
    | none =>
      rw [hl] at h
      dsimp only at h
      exact Or.inl ⟨rfl, ((Except.error.inj h).symm)⟩
    | some node =>
      rw [hl] at h
      dsimp only at h
      cases hd : dfsList (dfs w fuel) (refTargets node)
          ⟨insert i s.visited, s.required⟩ with
      | error e' =>
        rw [hd] at h
        exact Or.inr ⟨node, rfl, by rw [Except.error.inj h] at hd; exact hd⟩
      | ok s2 => rw [hd] at h; exact absurd h (by simp)

/-- A relation closed under reflexivity and transitivity that every
successful step satisfies also relates the ends of a `dfsList` run. -/
theorem dfsList_rel {step : String → DfsSt → Except PruneErr DfsSt}
    {R : DfsSt → DfsSt → Prop} (hrefl : ∀ s, R s s)
    (htrans : ∀ a b c, R a b → R b c → R a c)
    (hstep : ∀ i s s', step i s = .ok s' → R s s') :
    ∀ (ids : List String) (s s' : DfsSt),
      dfsList step ids s = .ok s' → R s s' := by
  intro ids
  induction ids with
  | nil =>
    intro s s' h
    rw [dfsList] at h
    rw [← Except.ok.inj h]
    exact hrefl s
  | cons i rest ih =>
    intro s s' h
    rw [dfsList] at h
    cases ht : step i s with
    | error e => rw [ht] at h; exact absurd h (by simp)
    | ok t =>
      rw [ht] at h
      exact htrans _ _ _ (hstep i s t ht) (ih t s' h)

/-- An invariant preserved by every step on ids from `G` is preserved by
a `dfsList` run over ids from `G`. -/
theorem dfsList_inv {step : String → DfsSt → Except PruneErr DfsSt}
    {I : DfsSt → Prop} {G : String → Prop}
    (hstep : ∀ i s s', G i → I s → step i s = .ok s' → I s') :
    ∀ (ids : List String) (s s' : DfsSt),
      (∀ i ∈ ids, G i) → I s → dfsList step ids s = .ok s' → I s' := by
  intro ids
  induction ids with
  | nil =>
    intro s s' _ hI h
    rw [dfsList] at h
    rw [← Except.ok.inj h]
    exact hI
  | cons i rest ih =>
    intro s s' hG hI h
    rw [dfsList] at h
    cases ht : step i s with
    | error e => rw [ht] at h; exact absurd h (by simp)
    | ok t =>
      rw [ht] at h
      exact ih t s' (fun j hj => hG j (List.mem_cons_of_mem i hj))
        (hstep i s t (hG i (List.mem_cons_self i rest)) hI ht) h

/-- After a successful `dfsList` run every processed id is visited. -/
theorem dfsList_elems {step : String → DfsSt → Except PruneErr DfsSt}
    (hvis : ∀ i s s', step i s = .ok s' → i ∈ s'.visited)
    (hmono : ∀ i s s', step i s = .ok s' → s.visited ⊆ s'.visited) :
    ∀ (ids : List String) (s s' : DfsSt),
      dfsList step ids s = .ok s' → ∀ i ∈ ids, i ∈ s'.visited := by
  intro ids
  induction ids with
  | nil => intro s s' _ i hi; simp at hi
  | cons j rest ih =>
    intro s s' h i hi
    rw [dfsList] at h
    cases ht : step j s with
    | error e => rw [ht] at h; exact absurd h (by simp)
    | ok t =>
      rw [ht] at h
      dsimp only at h
      rcases List.mem_cons.mp hi with hij | hi
      · subst hij
        exact dfsList_rel (R := fun a b => a.visited ⊆ b.visited)
          (fun _ => Finset.Subset.refl _)
          (fun _ _ _ hab hbc => Finset.Subset.trans hab hbc)
          hmono rest t s' h (hvis i s t ht)
      · exact ih t s' h i hi

/-- Errors of a `dfsList` run come from some step call. -/
theorem dfsList_error_ex {step : String → DfsSt → Except PruneErr DfsSt}
    {e : PruneErr} :
    ∀ (ids : List String) (s : DfsSt),
      dfsList step ids s = .error e → ∃ i s0, step i s0 = .error e := by
  intro ids
  induction ids with
  | nil => intro s h; rw [dfsList] at h; exact absurd h (by simp)
  | cons i rest ih =>
    intro s h
    rw [dfsList] at h
    cases ht : step i s with
    | error e' =>
      rw [ht] at h
      dsimp only at h
      exact ⟨i, s, by rw [Except.error.inj h] at ht; exact ht⟩
    | ok t =>
      rw [ht] at h
      exact ih t h

/-- A state predicate preserved by successful steps under which no step
returns the fuel marker keeps the fuel marker out of `dfsList`. -/
theorem dfsList_no_fuel_error {step : String → DfsSt → Except PruneErr DfsSt}
    {B : DfsSt → Prop}
    (hB : ∀ i s s', B s → step i s = .ok s' → B s')
    (hstep : ∀ i s, B s → step i s ≠ .error .fuelExhausted) :
    ∀ (ids : List String) (s : DfsSt),
      B s → dfsList step ids s ≠ .error .fuelExhausted := by
  intro ids
  induction ids with
  | nil => intro s _ h; rw [dfsList] at h; exact absurd h (by simp)
  | cons i rest ih =>
    intro s hBs h
    rw [dfsList] at h
    cases ht : step i s with
    | error e' =>
      rw [ht] at h
      dsimp only at h
      exact hstep i s hBs (by rw [Except.error.inj h] at ht; exact ht)
    | ok t =>
      rw [ht] at h
      exact ih t (hB i s t hBs ht) h

/-- Steps total on ids from `G` under a preserved state predicate make
`dfsList` total. -/
theorem dfsList_total {step : String → DfsSt → Except PruneErr DfsSt}
    {B : DfsSt → Prop} {G : String → Prop}
    (hB : ∀ i s s', B s → step i s = .ok s' → B s')
    (hstep : ∀ i s, G i → B s → ∃ s', step i s = .ok s') :
    ∀ (ids : List String) (s : DfsSt),
      (∀ i ∈ ids, G i) → B s → ∃ s', dfsList step ids s = .ok s' := by
  intro ids
  induction ids with
  | nil => intro s _ _; exact ⟨s, rfl⟩
  | cons i rest ih =>
    intro s hG hBs
    obtain ⟨t, ht⟩ := hstep i s (hG i (List.mem_cons_self i rest)) hBs
    obtain ⟨s', hs'⟩ := ih t (fun j hj => hG j (List.mem_cons_of_mem i hj))
      (hB i s t hBs ht)
    refine ⟨s', ?_⟩
    rw [dfsList, ht]
    exact hs'

/-- Two step functions that agree on states satisfying a predicate the
first one preserves give equal `dfsList` runs. -/
theorem dfsList_congr {step1 step2 : String → DfsSt → Except PruneErr DfsSt}
    {B : DfsSt → Prop}
    (hB : ∀ i s s', B s → step1 i s = .ok s' → B s')
    (hsteps : ∀ i s, B s → step1 i s = step2 i s) :
    ∀ (ids : List String) (s : DfsSt),
      B s → dfsList step1 ids s = dfsList step2 ids s := by
  intro ids
  induction ids with
  | nil => intro s _; rfl
  | cons i rest ih =>
    intro s hBs
    rw [dfsList, dfsList, ← hsteps i s hBs]
    cases ht : step1 i s with
    | error e => rfl
    | ok t => exact ih t (hB i s t hBs ht)

theorem dfs_mono (w : Workflow) :
    ∀ (fuel : Nat) (i : String) (s s' : DfsSt), dfs w fuel i s = .ok s' →
      s.visited ⊆ s'.visited ∧ s.required ⊆ s'.required := by
  intro fuel
  induction fuel with
  | zero => intro i s s' h; rw [dfs] at h; exact absurd h (by simp)
  | succ fuel ih =>
    intro i s s' h
    rcases dfs_succ_ok_inv h with ⟨hv, rfl⟩ | ⟨hv, node, s2, hl, hd, rfl⟩
    · exact ⟨Finset.Subset.refl _, Finset.Subset.refl _⟩
    · have hrel := dfsList_rel
        (R := fun a b => a.visited ⊆ b.visited ∧ a.required ⊆ b.required)
        (fun _ => ⟨Finset.Subset.refl _, Finset.Subset.refl _⟩)
        (fun _ _ _ hab hbc => ⟨hab.1.trans hbc.1, hab.2.trans hbc.2⟩)
        ih _ _ _ hd
      exact ⟨(Finset.subset_insert _ _).trans hrel.1,
             hrel.2.trans (Finset.subset_insert _ _)⟩

theorem dfs_visits (w : Workflow) :
    ∀ (fuel : Nat) (i : String) (s s' : DfsSt), dfs w fuel i s = .ok s' →
      i ∈ s'.visited := by
  intro fuel i s s' h
  cases fuel with
  | zero => rw [dfs] at h; exact absurd h (by simp)
  | succ fuel =>
    rcases dfs_succ_ok_inv h with ⟨hv, rfl⟩ | ⟨hv, node, s2, hl, hd, rfl⟩
    · exact hv
    · have hrel := dfsList_rel (R := fun a b => a.visited ⊆ b.visited)
        (fun _ => Finset.Subset.refl _)
        (fun _ _ _ hab hbc => hab.trans hbc)
        (fun i s s' h => (dfs_mono w fuel i s s' h).1) _ _ _ hd
      exact hrel (Finset.mem_insert_self i s.visited)

theorem dfs_req_sub_vis (w : Workflow) :
    ∀ (fuel : Nat) (i : String) (s s' : DfsSt), dfs w fuel i s = .ok s' →
      s.required ⊆ s.visited → s'.required ⊆ s'.visited := by
  intro fuel
  induction fuel with
  | zero => intro i s s' h; rw [dfs] at h; exact absurd h (by simp)
  | succ fuel ih =>
    intro i s s' h hrv
    rcases dfs_succ_ok_inv h with ⟨hv, rfl⟩ | ⟨hv, node, s2, hl, hd, rfl⟩
    · exact hrv
    · have h2 : s2.required ⊆ s2.visited :=
        dfsList_inv (I := fun t => t.required ⊆ t.visited) (G := fun _ => True)
          (fun i s s' _ hI h => ih i s s' h hI) (refTargets node)
          ⟨insert i s.visited, s.required⟩ s2 (fun _ _ => trivial)
          (hrv.trans (Finset.subset_insert _ _)) hd
      have hi2 : i ∈ s2.visited :=
        (dfsList_rel (R := fun a b => a.visited ⊆ b.visited)
          (fun _ => Finset.Subset.refl _)
          (fun _ _ _ hab hbc => hab.trans hbc)
          (fun i s s' h => (dfs_mono w fuel i s s' h).1) _ _ _ hd)
          (Finset.mem_insert_self i s.visited)
      exact Finset.insert_subset hi2 h2

theorem dfs_vis_sub_req (w : Workflow) :
    ∀ (fuel : Nat) (i : String) (s s' : DfsSt), dfs w fuel i s = .ok s' →
      s'.visited ⊆ s.visited ∪ s'.required ∧ s.required ⊆ s'.required := by
  intro fuel
  induction fuel with
  | zero => intro i s s' h; rw [dfs] at h; exact absurd h (by simp)
  | succ fuel ih =>
    intro i s s' h
    rcases dfs_succ_ok_inv h with ⟨hv, rfl⟩ | ⟨hv, node, s2, hl, hd, rfl⟩
    · exact ⟨Finset.subset_union_left, Finset.Subset.refl _⟩
    · have hrel := dfsList_rel
        (R := fun a b => (b.visited ⊆ a.visited ∪ b.required ∧
                          a.required ⊆ b.required) ∧ a.visited ⊆ b.visited)
        (fun _ => ⟨⟨Finset.subset_union_left, Finset.Subset.refl _⟩,
                   Finset.Subset.refl _⟩)
        (fun a b c hab hbc =>
          ⟨⟨by
              intro x hx
              rcases Finset.mem_union.mp (hbc.1.1 hx) with h | h
              · rcases Finset.mem_union.mp (hab.1.1 h) with h2 | h2
                · exact Finset.mem_union_left _ h2
                · exact Finset.mem_union_right _ (hbc.1.2 h2)
              · exact Finset.mem_union_right _ h,
            hab.1.2.trans hbc.1.2⟩, hab.2.trans hbc.2⟩)
        (fun i s s' h => ⟨ih i s s' h, (dfs_mono w fuel i s s' h).1⟩) _ _ _ hd
      constructor
      · calc s2.visited
            ⊆ insert i s.visited ∪ s2.required := hrel.1.1
          _ ⊆ s.visited ∪ insert i s2.required := by
              rw [Finset.insert_union, Finset.union_insert]
      · exact hrel.1.2.trans (Finset.subset_insert _ _)

theorem dfs_vis_sub_keys (w : Workflow) :
    ∀ (fuel : Nat) (i : String) (s s' : DfsSt), dfs w fuel i s = .ok s' →
      s'.visited ⊆ s.visited ∪ (keys w).toFinset := by
  intro fuel
  induction fuel with
  | zero => intro i s s' h; rw [dfs] at h; exact absurd h (by simp)
  | succ fuel ih =>
    intro i s s' h
    rcases dfs_succ_ok_inv h with ⟨hv, rfl⟩ | ⟨hv, node, s2, hl, hd, rfl⟩
    · exact Finset.subset_union_left
    · have hiK : i ∈ (keys w).toFinset :=
        List.mem_toFinset.mpr (lookupW_some_mem_keys hl)
      have hrel := dfsList_rel
        (R := fun a b => b.visited ⊆ a.visited ∪ (keys w).toFinset)
        (fun _ => Finset.subset_union_left)
        (fun a b c hab hbc => hbc.trans (Finset.union_subset
          (hab.trans (Finset.Subset.refl _)) Finset.subset_union_right))
        ih _ _ _ hd
      refine hrel.trans ?_
      intro x hx
      rcases Finset.mem_union.mp hx with hx | hx
      · rcases Finset.mem_insert.mp hx with rfl | hx
        · exact Finset.mem_union_right _ hiK
        · exact Finset.mem_union_left _ hx
      · exact Finset.mem_union_right _ hx

theorem dfs_closedSt (w : Workflow) :
    ∀ (fuel : Nat) (i : String) (s s' : DfsSt), dfs w fuel i s = .ok s' →
      ClosedSt w s → ClosedSt w s' := by
  intro fuel
  induction fuel with
  | zero => intro i s s' h; rw [dfs] at h; exact absurd h (by simp)
  | succ fuel ih =>
    intro i s s' h hcs
    rcases dfs_succ_ok_inv h with ⟨hv, rfl⟩ | ⟨hv, node, s2, hl, hd, rfl⟩
    · exact hcs
    · have hcs1 : ClosedSt w ⟨insert i s.visited, s.required⟩ := by
        intro i' hi' n hn j hj
        exact Finset.mem_insert_of_mem (hcs i' hi' n hn j hj)
      have hcs2 : ClosedSt w s2 :=
        dfsList_inv (I := ClosedSt w) (G := fun _ => True)
          (fun i s s' _ hI h => ih i s s' h hI) (refTargets node)
          ⟨insert i s.visited, s.required⟩ s2 (fun _ _ => trivial)
          hcs1 hd
      intro i' hi' n hn j hj
      rcases Finset.mem_insert.mp hi' with rfl | hi'
      · have hnn : n = node := Option.some.inj ((hn.symm).trans hl)
        subst hnn
        exact dfsList_elems (fun i s s' h => dfs_visits w fuel i s s' h)
          (fun i s s' h => (dfs_mono w fuel i s s' h).1) _ _ _ hd j hj
      · exact hcs2 i' hi' n hn j hj

theorem dfs_sound (w : Workflow) (O : List String) :
    ∀ (fuel : Nat) (i : String) (s s' : DfsSt), dfs w fuel i s = .ok s' →
      Reach w O i → (∀ v ∈ s.visited, Reach w O v) →
      ∀ v ∈ s'.visited, Reach w O v := by
  intro fuel
  induction fuel with
  | zero => intro i s s' h; rw [dfs] at h; exact absurd h (by simp)
  | succ fuel ih =>
    intro i s s' h hRi hvis
    rcases dfs_succ_ok_inv h with ⟨hv, rfl⟩ | ⟨hv, node, s2, hl, hd, rfl⟩
    · exact hvis
    · have hvis1 : ∀ v ∈ (insert i s.visited : Finset String), Reach w O v := by
        intro v hv'
        rcases Finset.mem_insert.mp hv' with rfl | hv'
        · exact hRi
        · exact hvis v hv'
      have hG : ∀ j ∈ refTargets node, Reach w O j :=
        fun j hj => Reach.step hRi hl hj
      exact dfsList_inv (I := fun t => ∀ v ∈ t.visited, Reach w O v)
        (G := Reach w O)
        (fun i s s' hGi hI h => ih i s s' h hGi hI) (refTargets node)
        ⟨insert i s.visited, s.required⟩ s2 hG hvis1 hd

theorem dfs_no_fuel_error (w : Workflow) :
    ∀ (fuel : Nat) (i : String) (s : DfsSt),
      ((keys w).toFinset \ s.visited).card < fuel →
      dfs w fuel i s ≠ .error .fuelExhausted := by
  intro fuel
  induction fuel with
  | zero => intro i s hc; exact absurd hc (by omega)
  | succ fuel ih =>
    intro i s hc h
    obtain ⟨hv, herr⟩ := dfs_succ_error_inv h
    rcases herr with ⟨_, heq⟩ | ⟨node, hl, hd⟩
    · exact PruneErr.noConfusion heq
    · have hiK : i ∈ (keys w).toFinset :=
        List.mem_toFinset.mpr (lookupW_some_mem_keys hl)
      have hlt : ((keys w).toFinset \ insert i s.visited).card
          < ((keys w).toFinset \ s.visited).card := by
        apply Finset.card_lt_card
        constructor
        · exact Finset.sdiff_subset_sdiff (le_refl _) (Finset.subset_insert i _)
        · intro hsub
          have h1 : i ∈ (keys w).toFinset \ s.visited :=
            Finset.mem_sdiff.mpr ⟨hiK, hv⟩
          have h2 := hsub h1
          rw [Finset.mem_sdiff] at h2
          exact h2.2 (Finset.mem_insert_self i s.visited)
      exact dfsList_no_fuel_error
        (B := fun t => ((keys w).toFinset \ t.visited).card < fuel)
        (fun i t t' hB h => lt_of_le_of_lt
          (Finset.card_le_card
            (Finset.sdiff_subset_sdiff (le_refl _) (dfs_mono w fuel i t t' h).1))
          hB)
        ih _ _ (by dsimp only; omega) hd

theorem dfs_keyError (w : Workflow) :
    ∀ (fuel : Nat) (i j : String) (s : DfsSt),
      dfs w fuel i s = .error (.keyError j) → lookupW w j = none := by
  intro fuel
  induction fuel with
  | zero => intro i j s h; rw [dfs] at h; simp at h
  | succ fuel ih =>
    intro i j s h
    obtain ⟨hv, herr⟩ := dfs_succ_error_inv h
    rcases herr with ⟨hnone, heq⟩ | ⟨node, hl, hd⟩
    · rw [PruneErr.keyError.inj heq]
      exact hnone
    · obtain ⟨i0, s0, h0⟩ := dfsList_error_ex _ _ hd
      exact ih i0 j s0 h0

theorem dfs_total (w : Workflow) (hcl : ClosedWf w) :
    ∀ (fuel : Nat) (i : String) (s : DfsSt), i ∈ keys w →
      ((keys w).toFinset \ s.visited).card < fuel →
      ∃ s', dfs w fuel i s = .ok s' := by
  intro fuel
  induction fuel with
  | zero => intro i s _ hc; exact absurd hc (by omega)
  | succ fuel ih =>
    intro i s hmem hc
    by_cases hv : i ∈ s.visited
    · exact ⟨s, by rw [dfs, if_pos hv]⟩
    · obtain ⟨node, hl⟩ := lookupW_isSome_of_mem hmem
      have hG : ∀ j ∈ refTargets node, j ∈ keys w :=
        fun j hj => hcl (i, node) (mem_of_lookupW hl) j hj
      have hiK : i ∈ (keys w).toFinset := List.mem_toFinset.mpr hmem
      have hlt : ((keys w).toFinset \ insert i s.visited).card
          < ((keys w).toFinset \ s.visited).card := by
        apply Finset.card_lt_card
        constructor
        · exact Finset.sdiff_subset_sdiff (le_refl _) (Finset.subset_insert i _)
        · intro hsub
          have h1 : i ∈ (keys w).toFinset \ s.visited :=
            Finset.mem_sdiff.mpr ⟨hiK, hv⟩
          have h2 := hsub h1
          rw [Finset.mem_sdiff] at h2
          exact h2.2 (Finset.mem_insert_self i s.visited)
      obtain ⟨s2, hd⟩ := dfsList_total
        (B := fun t => ((keys w).toFinset \ t.visited).card < fuel)
        (G := fun j => j ∈ keys w)
        (fun i t t' hB h => lt_of_le_of_lt
          (Finset.card_le_card
            (Finset.sdiff_subset_sdiff (le_refl _) (dfs_mono w fuel i t t' h).1))
          hB)
        ih (refTargets node) ⟨insert i s.visited, s.required⟩ hG
        (by dsimp only; omega)
      refine ⟨⟨s2.visited, insert i s2.required⟩, ?_⟩
      rw [dfs, if_neg hv, hl]
      dsimp only
      rw [hd]

theorem dfs_stable (w : Workflow) :
    ∀ (f1 f2 : Nat) (i : String) (s : DfsSt),
      ((keys w).toFinset \ s.visited).card < f1 →
      ((keys w).toFinset \ s.visited).card < f2 →
      dfs w f1 i s = dfs w f2 i s := by
  intro f1
  induction f1 with
  | zero => intro f2 i s h1 _; exact absurd h1 (by omega)
  | succ f1 ih =>
    intro f2 i s h1 h2
    cases f2 with
    | zero => exact absurd h2 (by omega)
    | succ f2 =>
      rw [dfs, dfs]
      by_cases hv : i ∈ s.visited
      · rw [if_pos hv, if_pos hv]
      · rw [if_neg hv, if_neg hv]
        cases hl : lookupW w i with
        | none => rfl
        | some node =>
          dsimp only
          have hiK : i ∈ (keys w).toFinset :=
            List.mem_toFinset.mpr (lookupW_some_mem_keys hl)
          have hlt : ((keys w).toFinset \ insert i s.visited).card
              < ((keys w).toFinset \ s.visited).card := by
            apply Finset.card_lt_card
            constructor
            · exact Finset.sdiff_subset_sdiff (le_refl _) (Finset.subset_insert i _)
            · intro hsub
              have hm1 : i ∈ (keys w).toFinset \ s.visited :=
                Finset.mem_sdiff.mpr ⟨hiK, hv⟩
              have hm2 := hsub hm1
              rw [Finset.mem_sdiff] at hm2
              exact hm2.2 (Finset.mem_insert_self i s.visited)
          have hcong := @dfsList_congr (dfs w f1) (dfs w f2)
            (fun t => ((keys w).toFinset \ t.visited).card < f1 ∧
                      ((keys w).toFinset \ t.visited).card < f2)
            (fun i t t' hB h =>
              ⟨lt_of_le_of_lt (Finset.card_le_card
                  (Finset.sdiff_subset_sdiff (le_refl _) (dfs_mono w f1 i t t' h).1))
                hB.1,
               lt_of_le_of_lt (Finset.card_le_card
                  (Finset.sdiff_subset_sdiff (le_refl _) (dfs_mono w f1 i t t' h).1))
                hB.2⟩)
            (fun i t hB => ih f2 i t hB.1 hB.2)
            (refTargets node) ⟨insert i s.visited, s.required⟩
            ⟨by dsimp only; omega, by dsimp only; omega⟩
          rw [hcong]

/-- The filtered workflow's key list is the filtered key list. -/
theorem keys_filter (w : Workflow) (S : Finset String) :
    keys (List.filter (fun p => decide (p.1 ∈ S)) w)
      = (keys w).filter (fun i => decide (i ∈ S)) := by
  induction w with
  | nil => rfl
  | cons p rest ih =>
    by_cases h : p.1 ∈ S <;>
      simp [keys, List.filter_cons, h, ih] <;> exact ih

/-- Filtering by a key predicate commutes with lookup of a kept key. -/
theorem lookup_filter_mem {w : Workflow} {S : Finset String} {i : String}
    (hi : i ∈ S) :
    List.lookup i (List.filter (fun p => decide (p.1 ∈ S)) w)
      = List.lookup i w := by
  induction w with
  | nil => rfl
  | cons p rest ih =>
    obtain ⟨k, v⟩ := p
    by_cases hk : i = k
    · subst hk
      rw [List.filter_cons]
      simp only [decide_eq_true_eq]
      rw [if_pos (by simpa using hi)]
      simp [List.lookup_cons]
    · by_cases hkS : k ∈ S
      · rw [List.filter_cons]
        simp only [decide_eq_true_eq]
        rw [if_pos (by simpa using hkS)]
        simp only [List.lookup_cons, beq_false_of_ne hk]
        exact ih
      · rw [List.filter_cons]
        simp only [decide_eq_true_eq]
        rw [if_neg (by simpa using hkS)]
        rw [ih]
        simp only [List.lookup_cons, beq_false_of_ne hk]

/-- The full characterization of a successful `dfs` run from the empty
state: the required set is exactly the reachable set, coincides with the
visited set, and contains only graph keys. -/
theorem dfsRun_characterization {w : Workflow} {O : List String} {fuel : Nat}
    {s : DfsSt} (hrun : dfsList (dfs w fuel) O ⟨∅, ∅⟩ = .ok s) :
    (∀ i, i ∈ s.required ↔ Reach w O i) ∧ s.visited = s.required ∧
      s.required ⊆ (keys w).toFinset := by
  have hreq_vis : s.required ⊆ s.visited :=
    dfsList_inv (I := fun t => t.required ⊆ t.visited) (G := fun _ => True)
      (fun i t t' _ hI h => dfs_req_sub_vis w fuel i t t' h hI) O ⟨∅, ∅⟩ s
      (fun _ _ => trivial) (Finset.Subset.refl _) hrun
  have hvis_req : s.visited ⊆ s.required := by
    have h := dfsList_rel
      (R := fun a b => (b.visited ⊆ a.visited ∪ b.required ∧
                        a.required ⊆ b.required))
      (fun _ => ⟨Finset.subset_union_left, Finset.Subset.refl _⟩)
      (fun a b c hab hbc =>
        ⟨by
            intro x hx
            rcases Finset.mem_union.mp (hbc.1 hx) with h | h
            · rcases Finset.mem_union.mp (hab.1 h) with h2 | h2
              · exact Finset.mem_union_left _ h2
              · exact Finset.mem_union_right _ (hbc.2 h2)
            · exact Finset.mem_union_right _ h,
          hab.2.trans hbc.2⟩)
      (fun i t t' h => dfs_vis_sub_req w fuel i t t' h) O ⟨∅, ∅⟩ s hrun
    intro x hx
    rcases Finset.mem_union.mp (h.1 hx) with h2 | h2
    · exact absurd h2 (Finset.not_mem_empty x)
    · exact h2
  have heq : s.visited = s.required := Finset.Subset.antisymm hvis_req hreq_vis
  have hkeys : s.visited ⊆ (keys w).toFinset := by
    have h := dfsList_rel
      (R := fun a b => b.visited ⊆ a.visited ∪ (keys w).toFinset)
      (fun _ => Finset.subset_union_left)
      (fun a b c hab hbc => by
        intro x hx
        rcases Finset.mem_union.mp (hbc hx) with h | h
        · rcases Finset.mem_union.mp (hab h) with h2 | h2
          · exact Finset.mem_union_left _ h2
          · exact Finset.mem_union_right _ h2
        · exact Finset.mem_union_right _ h)
      (fun i t t' h => dfs_vis_sub_keys w fuel i t t' h) O ⟨∅, ∅⟩ s hrun
    intro x hx
    rcases Finset.mem_union.mp (h hx) with h2 | h2
    · exact absurd h2 (Finset.not_mem_empty x)
    · exact h2
  have hO_vis : ∀ o ∈ O, o ∈ s.visited :=
    dfsList_elems (fun i t t' h => dfs_visits w fuel i t t' h)
      (fun i t t' h => (dfs_mono w fuel i t t' h).1) O ⟨∅, ∅⟩ s hrun
  have hclosed : ClosedSt w s :=
    dfsList_inv (I := ClosedSt w) (G := fun _ => True)
      (fun i t t' _ hI h => dfs_closedSt w fuel i t t' h hI) O ⟨∅, ∅⟩ s
      (fun _ _ => trivial)
      (fun i hi => absurd hi (Finset.not_mem_empty i)) hrun
  have hsound : ∀ v ∈ s.visited, Reach w O v :=
    dfsList_inv (I := fun t => ∀ v ∈ t.visited, Reach w O v) (G := Reach w O)
      (fun i t t' hGi hI h => dfs_sound w O fuel i t t' h hGi hI) O ⟨∅, ∅⟩ s
      (fun o ho => Reach.base ho)
      (fun v hv => absurd hv (Finset.not_mem_empty v)) hrun
  have hcomplete : ∀ i, Reach w O i → i ∈ s.required := by
    intro i hR
    induction hR with
    | base h => exact heq ▸ hO_vis _ h
    | step hR hl hj ihr =>
      exact heq ▸ hclosed _ ihr _ hl _ hj
  refine ⟨fun i => ⟨fun h => hsound i (hreq_vis h), hcomplete i⟩, heq,
    heq ▸ hkeys⟩

/-- Under the reference-closure invariant a run over output ids that
exist in the graph succeeds whenever the fuel exceeds the key count. -/
theorem dfsRun_total {w : Workflow} {O : List String} {fuel : Nat}
    (hcl : ClosedWf w) (hO : ∀ o ∈ O, o ∈ keys w)
    (hfuel : (keys w).toFinset.card < fuel) :
    ∃ s, dfsList (dfs w fuel) O ⟨∅, ∅⟩ = .ok s :=
  dfsList_total (B := fun t => ((keys w).toFinset \ t.visited).card < fuel)
    (G := fun j => j ∈ keys w)
    (fun i t t' hB h => lt_of_le_of_lt
      (Finset.card_le_card
        (Finset.sdiff_subset_sdiff (le_refl _) (dfs_mono w fuel i t t' h).1))
      hB)
    (fun i t hG hB => dfs_total w hcl fuel i t hG hB) O ⟨∅, ∅⟩ hO
    (by simpa using hfuel)

/-- Reachable ids are graph keys when the graph is closed and the
outputs exist. -/
theorem reach_mem_keys {w : Workflow} {O : List String}
    (hcl : ClosedWf w) (hO : ∀ o ∈ O, o ∈ keys w) :
    ∀ i, Reach w O i → i ∈ keys w := by
  intro i hR
  induction hR with
  | base h => exact hO _ h
  | step hR hl hj ihr => exact hcl _ (mem_of_lookupW hl) _ hj

/-! ## Claim theorems: the event listener -/

/-- C1.  The claim says a matching `ExecutionError` event moves the wait
to `Failed`, surfacing node id/type and exception type/message,
regardless of subsequent events.  The code only logs the event and keeps
streaming: classification yields `continueStream`, and a later
`status` event with empty queue makes the very same wait return
successfully with the prompt id. -/
theorem C1_matching_execution_error_only_logged :
    processMsg "P" (errMsg "P") = .ok .continueStream ∧
    runWait "P" "ws://host/ws?clientId=c" 5 30
        [.msg (errMsg "P"), .msg (statusMsg 0)]
      = (.completed "P", []) :=
  ⟨rfl, rfl⟩

/-- C2.  The claim says a submission response without a usable job
identifier yields a `SubmissionRejected` error and never terminates the
host process.  The code catches the `KeyError` and calls `sys.exit(1)`:
on an engine error payload the embedded step terminates the process. -/
theorem C2_missing_prompt_id_exits_process :
    queuePromptAndWaitStep
        (.vDict [("error", .vStr "invalid prompt"), ("node_errors", .vDict [])])
      = .processExit 1 :=
  rfl

/-- C7.  On the scenario sequence
`[Monitor, Status 2, Executing "5", Executed "5", Status 0]` the wait
stays streaming (no terminal outcome, no retry consumed) through every
proper prefix of the first four events and completes exactly on the
final `Status` with `queue_remaining = 0`; moreover any monitor event is
discarded, and any `executing`/`executed` event carrying a non-none
(string) node id leaves the listener state unchanged. -/
theorem C7_scenario_completes_on_final_status :
    (∀ (P u : String) (d r : Nat),
        runWait P u d r scenarioEvents = (.completed P, []) ∧
        ∀ k, k ≤ 4 → runWait P u d r (scenarioEvents.take k) = (.pending r, []))
    ∧ (∀ (P : String) (m : PyVal),
        pyGetItem m "type" = .ok (.vStr "crystools.monitor") →
        processMsg P m = .ok .continueStream)
    ∧ (∀ (P s : String) (m data : PyVal),
        pyGetItem m "type" = .ok (.vStr "executing") →
        pyGetItem m "data" = .ok data →
        pyGetItem data "node" = .ok (.vStr s) →
        processMsg P m = .ok .continueStream)
    ∧ (∀ (P s : String) (m data : PyVal),
        pyGetItem m "type" = .ok (.vStr "executed") →
        pyGetItem m "data" = .ok data →
        pyGetItem data "node" = .ok (.vStr s) →
        processMsg P m = .ok .continueStream) := by
  refine ⟨?_, ?_, ?_, ?_⟩
  · intro P u d r
    refine ⟨rfl, ?_⟩
    intro k hk
    interval_cases k <;> rfl
  · intro P m h
    simp [processMsg, h, pyEqStr]
  · intro P s m data h1 h2 h3
    simp [processMsg, h1, h2, h3, pyEqStr, pyIsNull]
  · intro P s m data h1 h2 h3
    simp [processMsg, h1, h2, h3, pyEqStr, pyIsNull]

theorem C7_witness :
    pyGetItem monitorMsg "type" = .ok (.vStr "crystools.monitor") ∧
    processMsg "Q" monitorMsg = .ok .continueStream ∧
    processMsg "Q" (executingMsg "5") = .ok .continueStream ∧
    runWait "Q" "u" 5 3 scenarioEvents = (.completed "Q", []) :=
  ⟨rfl,
   C7_scenario_completes_on_final_status.2.1 "Q" monitorMsg rfl,
   C7_scenario_completes_on_final_status.2.2.1 "Q" "5" (executingMsg "5")
     (.vDict [("node", .vStr "5"), ("node_type", .vStr "KSampler")]) rfl rfl rfl,
   (C7_scenario_completes_on_final_status.1 "Q" "u" 5 3).1⟩

/-- C8.  A transport drop with retry budget left consumes exactly one
retry, emits the fixed backoff sleep and a reconnection to the unchanged
websocket address, and the wait then proceeds with the remaining events —
so a later terminal event still completes; one more drop than the budget
yields the connection-exhausted failure whatever follows; every emitted
action is a sleep or a reconnect to the one address (in particular the
listener never submits a prompt), and the action trace is bounded by
twice the retry budget. -/
theorem C8_drop_reconnect_and_retry_ceiling :
    (∀ (P u : String) (d r : Nat) (rest : List WsEvent), 0 < r →
        runWait P u d r (.disconnect :: rest)
          = ((runWait P u d (r - 1) rest).1,
             .sleep d :: .reconnect u :: (runWait P u d (r - 1) rest).2))
    ∧ (∀ (P u : String) (d r : Nat) (rest : List WsEvent), 0 < r →
        (runWait P u d (r - 1) rest).1 = .completed P →
        (runWait P u d r (.disconnect :: rest)).1 = .completed P)
    ∧ (∀ (P u : String) (d r : Nat) (rest : List WsEvent),
        (runWait P u d r (List.replicate (r + 1) .disconnect ++ rest)).1
          = .connectionExhausted)
    ∧ (∀ (P u : String) (d r : Nat) (evs : List WsEvent) (a : Action),
        a ∈ (runWait P u d r evs).2 → a = .sleep d ∨ a = .reconnect u)
    ∧ (∀ (P u : String) (d r : Nat) (evs : List WsEvent),
        Action.submitPrompt ∉ (runWait P u d r evs).2)
    ∧ (∀ (P u : String) (d r : Nat) (evs : List WsEvent),
        (runWait P u d r evs).2.length ≤ 2 * r) := by
  have hdrop : ∀ (P u : String) (d r : Nat) (rest : List WsEvent), 0 < r →
      runWait P u d r (.disconnect :: rest)
        = ((runWait P u d (r - 1) rest).1,
           .sleep d :: .reconnect u :: (runWait P u d (r - 1) rest).2) := by
    intro P u d r rest hr
    rw [runWait_cons_error (eventResult_disconnect P), if_pos hr]
  refine ⟨hdrop, ?_, ?_, ?_, ?_, ?_⟩
  · intro P u d r rest hr hc
    rw [hdrop P u d r rest hr]
    exact hc
  · intro P u d r
    induction r with
    | zero =>
      intro rest
      rw [List.replicate_succ, List.cons_append,
        runWait_cons_error (eventResult_disconnect P)]
      simp
    | succ r ih =>
      intro rest
      rw [List.replicate_succ, List.cons_append,
        runWait_cons_error (eventResult_disconnect P), if_pos (Nat.succ_pos r)]
      exact ih rest
  · intro P u d r evs a hmem
    exact runWait_actions P u d evs r a hmem
  · intro P u d r evs hmem
    rcases runWait_actions P u d evs r _ hmem with h | h <;> simp at h
  · intro P u d r evs
    induction evs generalizing r with
    | nil => simp [runWait]
    | cons e rest ih =>
      cases he : eventResult P e with
      | error x =>
        rw [runWait_cons_error he]
        by_cases hr : 0 < r
        · rw [if_pos hr]
          have := ih (r - 1)
          simp only [List.length_cons]
          omega
        · rw [if_neg hr]
          simp
      | ok pr =>
        cases pr with
        | continueStream => rw [runWait_cons_continue he]; exact ih r
        | done s => rw [runWait_cons_done he]; simp

theorem C8_witness :
    0 < 1 ∧
    (runWait "P" "u" 5 0 [WsEvent.msg (statusMsg 0)]).1 = .completed "P" ∧
    (runWait "P" "u" 5 1 [.disconnect, .msg (statusMsg 0)]).1 = .completed "P" ∧
    (runWait "P" "u" 5 1 [.disconnect, .disconnect, .msg (statusMsg 0)]).1
      = .connectionExhausted :=
  ⟨Nat.one_pos, rfl,
   C8_drop_reconnect_and_retry_ceiling.2.1 "P" "u" 5 1
     [WsEvent.msg (statusMsg 0)] Nat.one_pos rfl,
   C8_drop_reconnect_and_retry_ceiling.2.2.1 "P" "u" 5 1
     [WsEvent.msg (statusMsg 0)]⟩

/-- C10.  Any exception during receipt or classification of an event —
a transport drop, a frame that fails JSON decoding, or a decoded message
missing an expected field — is handled identically to a connection
failure: the wait continues exactly as if the event had been a
disconnect, consuming one retry, sleeping the backoff and reconnecting
when budget remains, and failing with the connection-exhausted outcome
when it does not; such an event never directly completes the wait. -/
theorem C10_decode_failures_treated_as_connection_failures :
    (∀ (P u : String) (d r : Nat) (ev : WsEvent) (rest : List WsEvent) (e : PyExn),
        eventResult P ev = .error e →
        runWait P u d r (ev :: rest) = runWait P u d r (.disconnect :: rest))
    ∧ (∀ P : String, ∃ e, eventResult P .badFrame = .error e)
    ∧ (∀ P : String, ∃ e, processMsg P (.vDict [("data", .vDict [])]) = .error e)
    ∧ (∀ P : String, ∃ e,
        processMsg P (.vDict [("type", .vStr "status"), ("data", .vDict [])])
          = .error e)
    ∧ (∀ (P u : String) (d : Nat) (ev : WsEvent) (e : PyExn),
        eventResult P ev = .error e →
        (∀ r, 0 < r →
          runWait P u d r [ev] = (.pending (r - 1), [.sleep d, .reconnect u]))
        ∧ runWait P u d 0 [ev] = (.connectionExhausted, [])) := by
  refine ⟨?_, ?_, ?_, ?_, ?_⟩
  · intro P u d r ev rest e he
    rw [runWait_cons_error he, runWait_cons_error (eventResult_disconnect P)]
  · intro P; exact ⟨_, rfl⟩
  · intro P; exact ⟨_, rfl⟩
  · intro P; exact ⟨_, rfl⟩
  · intro P u d ev e he
    constructor
    · intro r hr
      rw [runWait_cons_error he, if_pos hr]
      rfl
    · rw [runWait_cons_error he]
      rfl

theorem C10_witness :
    eventResult "P" .badFrame = .error (.jsonDecodeError "Expecting value") ∧
    runWait "P" "u" 5 3 [.badFrame, .msg (statusMsg 0)]
      = runWait "P" "u" 5 3 [.disconnect, .msg (statusMsg 0)] ∧
    processMsg "P" (.vDict [("type", .vStr "status"), ("data", .vDict [])])
      = .error (.keyError "status") :=
  ⟨rfl,
   C10_decode_failures_treated_as_connection_failures.1 "P" "u" 5 3 .badFrame
     [WsEvent.msg (statusMsg 0)] (.jsonDecodeError "Expecting value") rfl,
   rfl⟩

/-! ## Claim theorems: the graph store -/

/-- C3 counterexample.  The claim says writing the string `"30"` over an
existing numeric parameter stores it coerced to a number, "not the
literal input".  The numeric branch of `set_node_param` stores the value
verbatim: a subsequent `get_node_param` returns the very string that was
passed in. -/
theorem C3_counterexample_numeric_param_not_coerced :
    set_node_param jsonLoadsUnused wSteps "7" "steps" (.vStr "30")
      = .ok wStepsAfter ∧
    get_node_param wStepsAfter "7" "steps" = .ok (.vStr "30") ∧
    isNumericPy (.vInt 20) = true ∧
    isNumericPy (.vStr "30") = false :=
  ⟨rfl, rfl, rfl, rfl⟩

/-- C3, amended.  For a node id and parameter present in the graph:
after `set_node_param(id, param, v)`, `get_node_param(id, param)` yields
`v` verbatim when the existing value was numeric or boolean (booleans
take the numeric branch because Python's `bool` subclasses `int`; the
boolean-coercion branch is unreachable, and no numeric coercion is
applied); when the existing value was a list, a string `v` is parsed as
structured data and the parse result is stored, while a non-string `v`
raises `TypeError`; otherwise `v` is stored verbatim. -/
theorem C3_amended_set_get_roundtrip (jl : String → Except PyExn PyVal)
    (w : Workflow) (id param : String) (v : PyVal) (node : WfNode)
    (orig : PyVal) (hn : lookupW w id = some node)
    (hp : List.lookup param node.inputs = some orig) :
    (isNumericPy orig = true →
      ∃ w', set_node_param jl w id param v = .ok w' ∧
            get_node_param w' id param = .ok v)
    ∧ (isNumericPy orig = false → isListPy orig = true →
        ∀ s pv, v = .vStr s → jl s = .ok pv →
          ∃ w', set_node_param jl w id param v = .ok w' ∧
                get_node_param w' id param = .ok pv)
    ∧ (isNumericPy orig = false → isListPy orig = true →
        (∀ s, v ≠ .vStr s) →
        ∃ msg, set_node_param jl w id param v = .error (.typeError msg))
    ∧ (isNumericPy orig = false → isListPy orig = false →
        ∃ w', set_node_param jl w id param v = .ok w' ∧
              get_node_param w' id param = .ok v) := by
  have hget : ∀ nv : PyVal,
      get_node_param
        (updateAssoc w id { node with inputs := updateAssoc node.inputs param nv })
        id param = .ok nv := by
    intro nv
    unfold get_node_param lookupW
    rw [lookup_updateAssoc_self]
    simp [lookup_updateAssoc_self]
  refine ⟨?_, ?_, ?_, ?_⟩
  · intro hnum
    refine ⟨_, ?_, hget v⟩
    simp [set_node_param, hn, hp, hnum]
  · intro hnum hlist s pv hv hjl
    have hb : isBoolPy orig = false := by
      by_contra hb
      simp [isBoolPy_imp_isNumericPy orig (by simpa using hb)] at hnum
    subst hv
    refine ⟨_, ?_, hget pv⟩
    simp [set_node_param, hn, hp, hnum, hb, hlist, hjl]
  · intro hnum hlist hvs
    have hb : isBoolPy orig = false := by
      by_contra hb
      simp [isBoolPy_imp_isNumericPy orig (by simpa using hb)] at hnum
    refine ⟨"the JSON object must be str, bytes or bytearray", ?_⟩
    cases v with
    | vStr s => exact absurd rfl (hvs s)
    | vNull => simp [set_node_param, hn, hp, hnum, hb, hlist]
    | vBool b => simp [set_node_param, hn, hp, hnum, hb, hlist]
    | vInt n => simp [set_node_param, hn, hp, hnum, hb, hlist]
    | vFloat q => simp [set_node_param, hn, hp, hnum, hb, hlist]
    | vList xs => simp [set_node_param, hn, hp, hnum, hb, hlist]
    | vDict kvs => simp [set_node_param, hn, hp, hnum, hb, hlist]
  · intro hnum hlist
    have hb : isBoolPy orig = false := by
      by_contra hb
      simp [isBoolPy_imp_isNumericPy orig (by simpa using hb)] at hnum
    refine ⟨_, ?_, hget v⟩
    simp [set_node_param, hn, hp, hnum, hb, hlist]

theorem C3_amended_witness :
    ∃ w', set_node_param jsonLoadsUnused wSteps "7" "steps" (.vStr "30") = .ok w' ∧
          get_node_param w' "7" "steps" = .ok (.vStr "30") :=
  (C3_amended_set_get_roundtrip jsonLoadsUnused wSteps "7" "steps" (.vStr "30")
    ⟨"sampler", [("steps", .vInt 20)]⟩ (.vInt 20) rfl rfl).1 rfl

/-- C9.  `prune` treats an input value as a reference edge exactly when
it is a list of exactly two elements, and follows the stringified first
element as a producer id.  Consequently, on a node whose input holds the
literal pair `[3, 5]`, `prune` chases a node named `"3"`: it fails with
a `KeyError` when no such node exists, and silently pulls the unrelated
node `"3"` into the result when one does. -/
theorem C9_two_element_lists_are_reference_edges :
    (∀ (n : WfNode) (j : String),
        j ∈ refTargets n ↔
          ∃ p ∈ n.inputs, ∃ a b, p.2 = PyVal.vList [a, b] ∧ j = pyStr a)
    ∧ prune wPair ["out"] true = .error (.keyError "3")
    ∧ prune wPairExtra ["out"] true = .ok wPairExtra := by
  refine ⟨?_, rfl, rfl⟩
  intro n j
  unfold refTargets
  rw [List.mem_filterMap]
  constructor
  · rintro ⟨p, hp, hf⟩
    refine ⟨p, hp, ?_⟩
    split at hf
    case _ a b heq =>
      exact ⟨a, b, heq, (Option.some.inj hf).symm⟩
    case _ =>
      exact absurd hf (by simp)
  · rintro ⟨p, hp, a, b, hpa, rfl⟩
    exact ⟨p, hp, by rw [hpa]⟩

/-! ## Claim theorems: pruning -/

/-- C4.  For a graph satisfying the data-model invariant (§3: every
reference's producer id exists) and output ids drawn from the graph,
`prune` returns a graph whose node set is exactly the set of ids
reachable from the outputs via reference inputs, each kept node carrying
its original definition, and re-pruning the result with the same outputs
returns it unchanged. -/
theorem C4_prune_reachable_and_idempotent (w : Workflow) (O : List String)
    (nc nc' : Bool) (hnd : (keys w).Nodup) (hcl : ClosedWf w)
    (hO : ∀ o ∈ O, o ∈ keys w) :
    ∃ w', prune w O nc = .ok w' ∧
      (∀ i, i ∈ keys w' ↔ Reach w O i) ∧
      (∀ i, i ∈ keys w' → lookupW w' i = lookupW w i) ∧
      prune w' O nc' = .ok w' := by
  have hfuel : (keys w).toFinset.card < (keys w).length + 1 :=
    Nat.lt_succ_of_le (List.toFinset_card_le _)
  obtain ⟨s, hs⟩ := dfsRun_total hcl hO hfuel
  obtain ⟨hiff, hvr, hsub⟩ := dfsRun_characterization hs
  set w' : Workflow := List.filter (fun p => decide (p.1 ∈ s.required)) w
    with hwdef
  have hok : prune w O nc = .ok w' := by
    unfold prune pruneFuel
    rw [hs]
  have hkeys' : ∀ i, i ∈ keys w' ↔ (i ∈ keys w ∧ i ∈ s.required) := by
    intro i
    rw [hwdef, keys_filter]
    simp [List.mem_filter]
  have hkeysIff : ∀ i, i ∈ keys w' ↔ Reach w O i := by
    intro i
    rw [hkeys' i]
    constructor
    · rintro ⟨-, hr⟩
      exact (hiff i).1 hr
    · intro hR
      exact ⟨reach_mem_keys hcl hO i hR, (hiff i).2 hR⟩
  have hlook : ∀ i, i ∈ keys w' → lookupW w' i = lookupW w i := by
    intro i hi
    have hiS : i ∈ s.required := ((hkeys' i).1 hi).2
    rw [hwdef]
    exact lookup_filter_mem hiS
  have hO' : ∀ o ∈ O, o ∈ keys w' := fun o ho => (hkeysIff o).2 (Reach.base ho)
  have hreachTo : ∀ i, Reach w O i → Reach w' O i := by
    intro i hR
    induction hR with
    | base h => exact Reach.base h
    | @step i j n hR hl hj ihr =>
      have hl' : lookupW w' i = some n := by
        rw [hlook i ((hkeysIff i).2 hR)]
        exact hl
      exact Reach.step ihr hl' hj
  have hcl' : ClosedWf w' := by
    intro p hp j hj
    have hpF : p ∈ List.filter (fun p => decide (p.1 ∈ s.required)) w := by
      rw [← hwdef]
      exact hp
    have hpw : p ∈ w := List.mem_of_mem_filter hpF
    have hpS : p.1 ∈ s.required := by
      simpa using (List.mem_filter.mp hpF).2
    have hR : Reach w O p.1 := (hiff _).1 hpS
    have hlp : lookupW w p.1 = some p.2 := lookupW_of_mem_nodup hnd hpw
    exact (hkeysIff j).2 (Reach.step hR hlp hj)
  have hfuel' : (keys w').toFinset.card < (keys w').length + 1 :=
    Nat.lt_succ_of_le (List.toFinset_card_le _)
  obtain ⟨s2, hs2⟩ := dfsRun_total hcl' hO' hfuel'
  obtain ⟨hiff2, -, -⟩ := dfsRun_characterization hs2
  have hfix : List.filter (fun p => decide (p.1 ∈ s2.required)) w' = w' := by
    apply List.filter_eq_self.mpr
    intro p hp
    have hpk : p.1 ∈ keys w' := List.mem_map_of_mem Prod.fst hp
    have hR : Reach w O p.1 := (hkeysIff _).1 hpk
    simpa using (hiff2 p.1).2 (hreachTo _ hR)
  have hok2 : prune w' O nc' = .ok w' := by
    unfold prune pruneFuel
    rw [hs2]
    dsimp only
    rw [hfix]
  exact ⟨w', hok, hkeysIff, hlook, hok2⟩

theorem C4_witness :
    ((keys wDiamond).Nodup ∧ ClosedWf wDiamond ∧
      (∀ o ∈ ["top"], o ∈ keys wDiamond)) ∧
    (∃ w', prune wDiamond ["top"] true = .ok w' ∧
      (∀ i, i ∈ keys w' ↔ Reach wDiamond ["top"] i) ∧
      (∀ i, i ∈ keys w' → lookupW w' i = lookupW wDiamond i) ∧
      prune w' ["top"] false = .ok w') :=
  ⟨⟨by decide, by decide, by decide⟩,
   C4_prune_reachable_and_idempotent wDiamond ["top"] true false
     (by decide) (by decide) (by decide)⟩

/-- C5.  On a graph with a dependency cycle among its reference edges
whose participants are reachable from the outputs, `prune` terminates —
its result does not depend on the fuel of the embedding once the fuel
reaches the bound `prune` itself uses — and returns a graph listing each
cycle participant exactly once. -/
theorem C5_prune_cycle_terminates (w : Workflow) (O : List String) (nc : Bool)
    (c : List String) (hnd : (keys w).Nodup) (hcl : ClosedWf w)
    (hO : ∀ o ∈ O, o ∈ keys w) (hc : c ≠ [])
    (hcyc : ∀ k (hk : k < c.length),
      RefEdge w (c.get ⟨k, hk⟩)
        (c.get ⟨(k + 1) % c.length,
               Nat.mod_lt _ (List.length_pos.mpr hc)⟩) = true)
    (hreach : ∀ i ∈ c, Reach w O i) :
    (∀ f, (keys w).length + 1 ≤ f → pruneFuel w O f = prune w O nc) ∧
    ∃ w', prune w O nc = .ok w' ∧ ∀ i ∈ c, (keys w').count i = 1 := by
  have hfuel : (keys w).toFinset.card < (keys w).length + 1 :=
    Nat.lt_succ_of_le (List.toFinset_card_le _)
  constructor
  · intro f hf
    unfold prune pruneFuel
    have hcong := @dfsList_congr (dfs w f) (dfs w ((keys w).length + 1))
      (fun t => ((keys w).toFinset \ t.visited).card < f ∧
                ((keys w).toFinset \ t.visited).card < (keys w).length + 1)
      (fun i t t' hB h =>
        ⟨lt_of_le_of_lt (Finset.card_le_card
            (Finset.sdiff_subset_sdiff (le_refl _) (dfs_mono w f i t t' h).1))
          hB.1,
         lt_of_le_of_lt (Finset.card_le_card
            (Finset.sdiff_subset_sdiff (le_refl _) (dfs_mono w f i t t' h).1))
          hB.2⟩)
      (fun i t hB => dfs_stable w f ((keys w).length + 1) i t hB.1 hB.2)
      O ⟨∅, ∅⟩
      ⟨by simpa using lt_of_lt_of_le hfuel hf, by simpa using hfuel⟩
    rw [hcong]
  · obtain ⟨s, hs⟩ := dfsRun_total hcl hO hfuel
    obtain ⟨hiff, -, -⟩ := dfsRun_characterization hs
    refine ⟨List.filter (fun p => decide (p.1 ∈ s.required)) w, ?_, ?_⟩
    · unfold prune pruneFuel
      rw [hs]
    · intro i hi
      have hR : Reach w O i := hreach i hi
      have hik : i ∈ keys w := reach_mem_keys hcl hO i hR
      have hiS : i ∈ s.required := (hiff i).2 hR
      rw [keys_filter w s.required]
      apply List.count_eq_one_of_mem (hnd.filter _)
      rw [List.mem_filter]
      exact ⟨hik, by simpa using hiS⟩

theorem C5_witness :
    ((keys wCycle).Nodup ∧ ClosedWf wCycle ∧ (∀ o ∈ ["a"], o ∈ keys wCycle)) ∧
    prune wCycle ["a"] true = .ok wCycle ∧
    (∃ w', prune wCycle ["a"] true = .ok w' ∧
      ∀ i ∈ ["a", "b"], (keys w').count i = 1) := by
  have hreach : ∀ i ∈ ["a", "b"], Reach wCycle ["a"] i := by
    intro i hi
    rcases List.mem_cons.mp hi with rfl | hi
    · exact Reach.base (by simp)
    · rcases List.mem_cons.mp hi with rfl | hi
      · exact Reach.step (i := "a") (n := nodeA) (Reach.base (by simp)) rfl
          (by decide)
      · simp at hi
  exact ⟨⟨by decide, by decide, by decide⟩, rfl,
    (C5_prune_cycle_terminates wCycle ["a"] true ["a", "b"]
      (by decide) (by decide) (by decide) (by decide) (by decide) hreach).2⟩

/-- C6.  If an output id, or any producer id transitively referenced
from the outputs, has no entry in the graph, `prune` fails with the
`KeyError` of the missing lookup instead of returning a graph. -/
theorem C6_prune_missing_id_fails (w : Workflow) (O : List String) (nc : Bool)
    (h : ∃ i, Reach w O i ∧ i ∉ keys w) :
    ∃ j, prune w O nc = .error (.keyError j) ∧ j ∉ keys w := by
  obtain ⟨i, hR, hmem⟩ := h
  cases hrun : dfsList (dfs w ((keys w).length + 1)) O ⟨∅, ∅⟩ with
  | ok s =>
    obtain ⟨hiff, -, hsub⟩ := dfsRun_characterization hrun
    exact absurd (List.mem_toFinset.mp (hsub ((hiff i).2 hR))) hmem
  | error e =>
    cases e with
    | fuelExhausted =>
      have hfuel : (keys w).toFinset.card < (keys w).length + 1 :=
        Nat.lt_succ_of_le (List.toFinset_card_le _)
      exact absurd hrun (dfsList_no_fuel_error
        (B := fun t =>
          ((keys w).toFinset \ t.visited).card < (keys w).length + 1)
        (fun i t t' hB hok => lt_of_le_of_lt
          (Finset.card_le_card (Finset.sdiff_subset_sdiff (le_refl _)
            (dfs_mono w ((keys w).length + 1) i t t' hok).1))
          hB)
        (dfs_no_fuel_error w ((keys w).length + 1)) O ⟨∅, ∅⟩
        (by simpa using hfuel))
    | keyError j =>
      have hnone : lookupW w j = none := by
        obtain ⟨i0, s0, h0⟩ := dfsList_error_ex _ _ hrun
        exact dfs_keyError w _ i0 j s0 h0
      refine ⟨j, ?_, ?_⟩
      · unfold prune pruneFuel
        rw [hrun]
      · intro hj
        obtain ⟨n, hn⟩ := lookupW_isSome_of_mem hj
        rw [hnone] at hn
        exact Option.noConfusion hn

theorem C6_witness :
    (∃ i, Reach wDangling ["a"] i ∧ i ∉ keys wDangling) ∧
    prune wDangling ["a"] true = .error (.keyError "b") ∧
    (∃ j, prune wDangling ["a"] true = .error (.keyError j) ∧
      j ∉ keys wDangling) := by
  have hex : ∃ i, Reach wDangling ["a"] i ∧ i ∉ keys wDangling :=
    ⟨"b",
     Reach.step (i := "a") (n := nodeA) (Reach.base (by simp)) rfl (by decide),
     by decide⟩
  exact ⟨hex, rfl, C6_prune_missing_id_fails wDangling ["a"] true hex⟩

end Comfy
